import Mathlib

/-!
Shallow embedding of the Result Synchronization Engine of `src/server.go`:
the HTML table extractor (`getAllTDs`), the positional result parser and
renderer inlined in `updateOne`, the pending-specimen query of
`updatePending`, and the commit / rows-affected check, together with the
polling-pass loop.  The SQL store is modelled as a list of `Sample` rows,
the HTML tokenizer of `golang.org/x/net/html` as a list of `Token`s, and
process time as a `Nat` passed in explicitly.
-/

namespace Cascadia

/-- One token of the streaming HTML tokenizer (`golang.org/x/net/html`).
`other` stands for the token kinds `getAllTDs` never inspects
(comments, doctypes, end-of-stream is the end of the list). -/
inductive Token where
  | startTag (name : String)
  | endTag (name : String)
  | selfClosing (name : String)
  | text (s : String)
  | other
deriving DecidableEq

/-- The text payload of a text token, if any. -/
def textOf : Token → Option String
  | Token.text s => some s
  | _ => none

/-- Whitespace as recognized by `strings.TrimSpace` (restricted to the
ASCII whitespace characters, the only ones the portal pages use). -/
def isSpaceChar (c : Char) : Bool :=
  c == ' ' || c == '\t' || c == '\n' || c == '\r' ||
    c == Char.ofNat 11 || c == Char.ofNat 12

/-- `strings.TrimSpace`: drop leading and trailing whitespace. -/
def trimSpace (s : String) : String :=
  String.mk (((s.toList.dropWhile isSpaceChar).reverse.dropWhile isSpaceChar).reverse)

/-- ASCII lower-casing of one character, as SQLite's `LIKE` applies it. -/
def lowerChar (c : Char) : Char :=
  if c.toNat ≥ 65 ∧ c.toNat ≤ 90 then Char.ofNat (c.toNat + 32) else c

/-- ASCII lower-casing of a string. -/
def lowerStr (s : String) : String :=
  String.mk (s.toList.map lowerChar)

/-- The token loop of `getAllTDs` (src/server.go:262-286): `grab` is the
`grabNextText` flag; a start tag named "td" sets it; a text token seen
while it is set is trimmed, discarded if empty (the flag stays set), and
otherwise emitted with the flag cleared.  All other tokens are skipped. -/
def extractTDs : Bool → List Token → List String
  | _, [] => []
  | grab, Token.startTag name :: rest =>
      extractTDs (if name == "td" then true else grab) rest
  | grab, Token.text s :: rest =>
      if grab then
        if trimSpace s == "" then extractTDs true rest
        else trimSpace s :: extractTDs false rest
      else extractTDs grab rest
  | grab, _ :: rest => extractTDs grab rest

/-- `getAllTDs` (src/server.go:258-287) over the token stream of the
response body.  `tokErr` is true when the tokenizer ends the stream with a
non-EOF error, in which case the function returns the error (`none`) and
discards everything collected; an EOF end returns the collected cells. -/
def getAllTDs (toks : List Token) (tokErr : Bool) : Option (List String) :=
  if tokErr then none else some (extractTDs false toks)

/-- Whether `pat` occurs as a contiguous substring of `s`. -/
def strContains (s pat : String) : Bool :=
  (List.range (s.toList.length + 1)).any
    (fun i => (s.toList.drop i).take pat.toList.length == pat.toList)

/-- The row filter of the pending query
`SELECT * FROM Samples WHERE results LIKE '%pending%'`
(src/server.go:182).  SQLite `LIKE` is ASCII case-insensitive and the
`%...%` pattern is a substring match; a NULL `results` never matches. -/
def likePending : Option String → Bool
  | none => false
  | some s => strContains (lowerStr s) "pending"

/-- A row of the `Samples` table (struct `Sample`, src/server.go:95-102).
Timestamps are abstract `Nat` instants; `results` and `sample_date` are
nullable text. -/
structure Sample where
  name : String
  barcode : String
  results : Option String
  createdTime : Nat
  updatedTime : Nat
  sampleDate : Option String
deriving DecidableEq

/-- A roster entry (`ConfigPerson`, src/server.go:26-29). -/
structure ConfigPerson where
  name : String
  dateOfBirth : String
deriving DecidableEq

/-- The pending query of `updatePending` (src/server.go:182): the rows of
the store whose `results` matches `LIKE '%pending%'`. -/
def selectPending (db : List Sample) : List Sample :=
  db.filter (fun r => likePending r.results)

/-- The classification the spec calls the Positional Result Parser. -/
inductive Classification where
  | notYetAvailable
  | unrecognized
  | resolved (text : String) (sampleDate : String)
deriving DecidableEq

/-- The additional-row loop `for i := 3; i < len(data)-3; i = i + 2`
(src/server.go:242-244), written with a fuel argument so that it is
structurally recursive; `renderResults` supplies `data.length` as fuel,
which bounds the number of iterations, so the guard `i < len(data)-3`
always stops the loop before the fuel runs out. -/
def renderLoopF (data : List String) : Nat → Nat → String → String
  | 0, _, acc => acc
  | fuel + 1, i, acc =>
      if i < data.length - 3 then
        renderLoopF data fuel (i + 2)
          (acc ++ " | " ++ data.getD i "" ++ " " ++ data.getD (i + 1) "")
      else acc

/-- The result-text rendering of `updateOne` (src/server.go:241-244):
`results := data[1] + " " + data[2]` followed by the additional-row loop. -/
def renderResults (data : List String) : String :=
  renderLoopF data data.length 3 (data.getD 1 "" ++ " " ++ data.getD 2 "")

/-- The classification and rendering logic of `updateOne`
(src/server.go:233-246): empty data is "no data yet"; `len < 4` or
(`len >= 5` and `len` even) is unrecognized; otherwise the result text is
rendered and the sample date is `data[len(data)-2]`. -/
def classify (data : List String) : Classification :=
  if data.length = 0 then Classification.notYetAvailable
  else if data.length < 4 ∨ (5 ≤ data.length ∧ data.length % 2 ≠ 1) then
    Classification.unrecognized
  else
    Classification.resolved (renderResults data) (data.getD (data.length - 2) "")

/-- The roster scan of `updateOne` (src/server.go:207-213): `dob` starts
empty and the first roster entry whose name matches sets it; an empty
result is treated as "no match" (src/server.go:214-217). -/
def lookupDob (people : List ConfigPerson) (name : String) : String :=
  match people.find? (fun p => p.name == name) with
  | some p => p.dateOfBirth
  | none => ""

/-- The outcome of one portal lookup (`http.PostForm` at
src/server.go:219): either a network error, or a response body given by
its token stream together with the tokenizer-error flag of `getAllTDs`. -/
inductive PortalResp where
  | netErr
  | body (toks : List Token) (tokErr : Bool)

/-- The effect of the commit
`UPDATE Samples SET results = ?, updated_time = ?, sample_date = ? WHERE barcode = ?`
(src/server.go:246) on one matching row. -/
def updateRow (res date : String) (now : Nat) (r : Sample) : Sample :=
  { r with results := some res, updatedTime := now, sampleDate := some date }

/-- `updateOne` (src/server.go:206-254) on a store `db`: returns the
store after the call together with the fatal flag (`log.Fatalf` at
src/server.go:252 fires when the commit's affected-row count is not 1).
Every early `return` of the source leaves the store unchanged with the
flag clear.  The store itself is assumed not to fail: the query and
commit error paths of the source (also soft skips) are not reachable in
this model. -/
def updateOne (people : List ConfigPerson) (portal : Sample → PortalResp)
    (now : Nat) (db : List Sample) (smpl : Sample) : List Sample × Bool :=
  if lookupDob people smpl.name = "" then (db, false)
  else
    match portal smpl with
    | PortalResp.netErr => (db, false)
    | PortalResp.body toks tokErr =>
      match getAllTDs toks tokErr with
      | none => (db, false)
      | some data =>
        match classify data with
        | Classification.notYetAvailable => (db, false)
        | Classification.unrecognized => (db, false)
        | Classification.resolved res date =>
          let db' := db.map (fun r =>
            if r.barcode == smpl.barcode then updateRow res date now r else r)
          let affected := (db.filter (fun r => r.barcode == smpl.barcode)).length
          (db', affected != 1)

/-- The per-sample loop of `updatePending` (src/server.go:200-202) over
the snapshot of pending samples: `log.Fatalf` terminates the process, so
a fatal `updateOne` stops the pass with the already-committed store. -/
def updatePendingLoop (people : List ConfigPerson) (portal : Sample → PortalResp)
    (now : Nat) : List Sample → List Sample → List Sample × Bool
  | db, [] => (db, false)
  | db, smpl :: rest =>
    match updateOne people portal now db smpl with
    | (db', true) => (db', true)
    | (db', false) => updatePendingLoop people portal now db' rest

/-- One polling pass (`updatePending`, src/server.go:181-204): query the
pending samples, then handle each in turn. -/
def updatePending (people : List ConfigPerson) (portal : Sample → PortalResp)
    (now : Nat) (db : List Sample) : List Sample × Bool :=
  updatePendingLoop people portal now db (selectPending db)

/-- The scheduler loop (`periodicallyUpdate`, src/server.go:173-179): one
pass per tick, each tick with its own portal behaviour and clock instant;
a fatal pass terminates the process, ending the sequence. -/
def periodicallyUpdate (people : List ConfigPerson) :
    List ((Sample → PortalResp) × Nat) → List Sample → List Sample × Bool
  | [], db => (db, false)
  | (portal, now) :: ticks, db =>
    match updatePending people portal now db with
    | (db', true) => (db', true)
    | (db', false) => periodicallyUpdate people ticks db'

/-- One additional-row fragment of the rendered result text, as the spec
describes it: the " | "-prefixed pair at positions `i`, `i+1`. -/
def rowPart (data : List String) (i : Nat) : String :=
  " | " ++ data.getD i "" ++ " " ++ data.getD (i + 1) ""

/-- Concatenation of text fragments. -/
def joinParts : List String → String
  | [] => ""
  | p :: ps => p ++ joinParts ps

/-- The number of additional-row iterations the loop
`for i := 3; i < count-3; i += 2` performs for a given cell count. -/
def numAdditionalRows (count : Nat) : Nat := (count - 5) / 2

/-- The result text as the spec states it: the header `cells[1] ++ " " ++
cells[2]` followed by one `rowPart` for each `i = 3, 5, 7, ...` with
`i < count - 3`. -/
def specText (data : List String) : String :=
  data.getD 1 "" ++ " " ++ data.getD 2 "" ++
    joinParts ((List.range (numAdditionalRows data.length)).map
      (fun j => rowPart data (3 + 2 * j)))

/-- Whether the token at position `k` lies inside a table-cell element:
some earlier `<td>` start tag has no matching `</td>` end tag strictly
between it and position `k`. -/
def inCellB (toks : List Token) (k : Nat) : Bool :=
  (List.range k).any (fun j =>
    toks.getD j Token.other == Token.startTag "td" &&
      (List.range (k - (j + 1))).all (fun l =>
        toks.getD (j + 1 + l) Token.other != Token.endTag "td"))

/-- The length-7 cell sequence of the spec's rendering example. -/
def cells7 : List String := ["s", "H1", "H2", "R1a", "R1b", "DATE", "last"]

/-- A token stream in which the only text node lies outside every
table-cell element (the cell is already closed when the text arrives):
the document `<td></td>x`. -/
def strayTextToks : List Token :=
  [Token.startTag "td", Token.endTag "td", Token.text "x"]

/-- A minimal one-cell token stream: `<td>a`. -/
def oneCellToks : List Token := [Token.startTag "td", Token.text "a"]

/-- A token stream with a header cell only: `<th>Header</th>outside`. -/
def thOnlyToks : List Token :=
  [Token.startTag "th", Token.text "Header", Token.endTag "th", Token.text "outside"]

/-- The token stream the HTML tokenizer produces for the round-trip
fixture `<table><tr><td>a</td><td>H1</td><td>H2</td><td>2024-01-01</td></tr></table>`. -/
def fixtureTokens : List Token :=
  [Token.startTag "table", Token.startTag "tr",
   Token.startTag "td", Token.text "a", Token.endTag "td",
   Token.startTag "td", Token.text "H1", Token.endTag "td",
   Token.startTag "td", Token.text "H2", Token.endTag "td",
   Token.startTag "td", Token.text "2024-01-01", Token.endTag "td",
   Token.endTag "tr", Token.endTag "table"]

/-- A persisted row whose `results` is a resolved (non-sentinel) value
that still contains "pending" as a substring. -/
def strayPendingRow : Sample :=
  { name := "n", barcode := "b", results := some "still pending",
    createdTime := 0, updatedTime := 0, sampleDate := none }

/-- A one-person roster used by the concrete reconciliation runs. -/
def onePerson : List ConfigPerson := [{ name := "n", dateOfBirth := "01/01/2000" }]

/-- A portal whose response resolves every lookup to the four cells
`["s", "pending", "review", "2024"]`, so that the committed result text
is "pending review" — a resolved value containing the sentinel. -/
def pendingWordPortal : Sample → PortalResp :=
  fun _ => PortalResp.body
    [Token.startTag "td", Token.text "s", Token.startTag "td", Token.text "pending",
     Token.startTag "td", Token.text "review", Token.startTag "td", Token.text "2024"] false

/-- A freshly registered pending specimen. -/
def pendingSample : Sample :=
  { name := "n", barcode := "b", results := some "pending",
    createdTime := 0, updatedTime := 0, sampleDate := none }

/-- A store holding one freshly registered pending specimen. -/
def pendingDb : List Sample := [pendingSample]

/-- A store holding one resolved specimen whose result text does not
contain the sentinel. -/
def resolvedDb : List Sample :=
  [{ name := "n", barcode := "b", results := some "done",
     createdTime := 0, updatedTime := 1, sampleDate := some "d" }]

/-- A token stream carrying four sentinel-free cells. -/
def cleanToks : List Token :=
  [Token.startTag "td", Token.text "s", Token.startTag "td", Token.text "Covid",
   Token.startTag "td", Token.text "Negative", Token.startTag "td", Token.text "2024"]

/-- A portal that resolves every lookup to four sentinel-free cells. -/
def cleanPortal : Sample → PortalResp :=
  fun _ => PortalResp.body cleanToks false

/-- A portal whose every lookup fails with a network error. -/
def netErrPortal : Sample → PortalResp := fun _ => PortalResp.netErr

/-- A store holding two pending specimens that share one barcode. -/
def dupBarcodeDb : List Sample :=
  [{ name := "n", barcode := "b", results := some "pending",
     createdTime := 0, updatedTime := 0, sampleDate := none },
   { name := "n", barcode := "b", results := some "pending",
     createdTime := 0, updatedTime := 0, sampleDate := none }]

/-! Theorems. -/

/-- Every cell text the extractor emits comes from some text token of the
stream: the stream splits as `l1 ++ text d :: l2` with the emitted string
equal to the non-empty trim of `d`, and — unless capture was already set
on entry — some `<td>` start tag occurs in `l1`. -/
theorem extractTDs_sound : ∀ (toks : List Token) (grab : Bool) (s : String),
    s ∈ extractTDs grab toks →
    ∃ l1 d l2, toks = l1 ++ Token.text d :: l2 ∧ s = trimSpace d ∧ trimSpace d ≠ "" ∧
      (grab = true ∨ ∃ m1 m2, l1 = m1 ++ Token.startTag "td" :: m2) := by
  intro toks
  induction toks with
  | nil =>
    intro grab s h
    simp [extractTDs] at h
  | cons t rest ih =>
    intro grab s h
    cases t with
    | startTag name =>
      simp only [extractTDs] at h
      obtain ⟨l1, d, l2, heq, hs, hne, hgrab⟩ := ih _ s h
      refine ⟨Token.startTag name :: l1, d, l2, by simp [heq], hs, hne, ?_⟩
      by_cases hn : name = "td"
      · exact Or.inr ⟨[], l1, by simp [hn]⟩
      · rw [if_neg (by simpa using hn)] at hgrab
        rcases hgrab with hg | ⟨m1, m2, hm⟩
        · exact Or.inl hg
        · exact Or.inr ⟨Token.startTag name :: m1, m2, by simp [hm]⟩
    | text d0 =>
      simp only [extractTDs] at h
      by_cases hg : grab = true
      · rw [if_pos hg] at h
        by_cases he : trimSpace d0 == ""
        · rw [if_pos he] at h
          obtain ⟨l1, d, l2, heq, hs, hne, _⟩ := ih true s h
          exact ⟨Token.text d0 :: l1, d, l2, by simp [heq], hs, hne, Or.inl hg⟩
        · rw [if_neg he] at h
          rcases List.mem_cons.mp h with hs | hmem
          · exact ⟨[], d0, rest, rfl, hs, by simpa using he, Or.inl hg⟩
          · obtain ⟨l1, d, l2, heq, hs', hne, _⟩ := ih false s hmem
            exact ⟨Token.text d0 :: l1, d, l2, by simp [heq], hs', hne, Or.inl hg⟩
      · rw [if_neg hg] at h
        obtain ⟨l1, d, l2, heq, hs, hne, hgrab⟩ := ih grab s h
        refine ⟨Token.text d0 :: l1, d, l2, by simp [heq], hs, hne, ?_⟩
        rcases hgrab with hgt | ⟨m1, m2, hm⟩
        · exact Or.inl hgt
        · exact Or.inr ⟨Token.text d0 :: m1, m2, by simp [hm]⟩
    | endTag name =>
      simp only [extractTDs] at h
      obtain ⟨l1, d, l2, heq, hs, hne, hgrab⟩ := ih grab s h
      refine ⟨Token.endTag name :: l1, d, l2, by simp [heq], hs, hne, ?_⟩
      rcases hgrab with hgt | ⟨m1, m2, hm⟩
      · exact Or.inl hgt
      · exact Or.inr ⟨Token.endTag name :: m1, m2, by simp [hm]⟩
    | selfClosing name =>
      simp only [extractTDs] at h
      obtain ⟨l1, d, l2, heq, hs, hne, hgrab⟩ := ih grab s h
      refine ⟨Token.selfClosing name :: l1, d, l2, by simp [heq], hs, hne, ?_⟩
      rcases hgrab with hgt | ⟨m1, m2, hm⟩
      · exact Or.inl hgt
      · exact Or.inr ⟨Token.selfClosing name :: m1, m2, by simp [hm]⟩
    | other =>
      simp only [extractTDs] at h
      obtain ⟨l1, d, l2, heq, hs, hne, hgrab⟩ := ih grab s h
      refine ⟨Token.other :: l1, d, l2, by simp [heq], hs, hne, ?_⟩
      rcases hgrab with hgt | ⟨m1, m2, hm⟩
      · exact Or.inl hgt
      · exact Or.inr ⟨Token.other :: m1, m2, by simp [hm]⟩

/-- The emitted cell texts form a subsequence of the trimmed text tokens
of the stream: emission happens in document order. -/
theorem extractTDs_sublist : ∀ (toks : List Token) (grab : Bool),
    List.Sublist (extractTDs grab toks) ((toks.filterMap textOf).map trimSpace) := by
  intro toks
  induction toks with
  | nil =>
    intro grab
    simp [extractTDs]
  | cons t rest ih =>
    intro grab
    cases t with
    | startTag name =>
      simpa [extractTDs, textOf] using ih _
    | text d0 =>
      simp only [extractTDs, List.filterMap_cons, textOf, List.map_cons]
      by_cases hg : grab = true
      · rw [if_pos hg]
        by_cases he : trimSpace d0 == ""
        · rw [if_pos he]
          exact (ih true).cons _
        · rw [if_neg he]
          exact (ih false).cons₂ _
      · rw [if_neg hg]
        exact (ih grab).cons _
    | endTag name =>
      simpa [extractTDs, textOf] using ih grab
    | selfClosing name =>
      simpa [extractTDs, textOf] using ih grab
    | other =>
      simpa [extractTDs, textOf] using ih grab

/-- If no `<td>` start tag occurs in the stream, nothing is ever captured
while the flag is down. -/
theorem extractTDs_no_td : ∀ (toks : List Token),
    (∀ name, Token.startTag name ∈ toks → name ≠ "td") →
    extractTDs false toks = [] := by
  intro toks
  induction toks with
  | nil => intro _; rfl
  | cons t rest ih =>
    intro h
    cases t with
    | startTag name =>
      have hn : (name == "td") = false := by
        simpa using h name (List.mem_cons_self _ _)
      simp only [extractTDs, hn, Bool.false_eq_true, if_false]
      exact ih fun n hm => h n (List.mem_cons_of_mem _ hm)
    | text d0 =>
      simp only [extractTDs, if_neg (by simp : ¬(false = true))]
      exact ih fun n hm => h n (List.mem_cons_of_mem _ hm)
    | endTag name =>
      simp only [extractTDs]
      exact ih fun n hm => h n (List.mem_cons_of_mem _ hm)
    | selfClosing name =>
      simp only [extractTDs]
      exact ih fun n hm => h n (List.mem_cons_of_mem _ hm)
    | other =>
      simp only [extractTDs]
      exact ih fun n hm => h n (List.mem_cons_of_mem _ hm)

/-- C1: the Positional Result Parser classifies an extracted cell
sequence as `notYetAvailable` exactly when it is empty, as
`unrecognized` exactly when the cell count is non-zero and below 4 or at
least 5 and even, and as `resolved` in exactly the remaining cases
(count 4, or at least 5 and odd). -/
theorem C1_classification (data : List String) :
    (classify data = Classification.notYetAvailable ↔ data.length = 0) ∧
    (classify data = Classification.unrecognized ↔
      (data.length ≠ 0 ∧ data.length < 4) ∨ (5 ≤ data.length ∧ data.length % 2 = 0)) ∧
    ((∃ t d, classify data = Classification.resolved t d) ↔
      data.length = 4 ∨ (5 ≤ data.length ∧ data.length % 2 = 1)) := by
  by_cases h0 : data.length = 0
  · have hnil : data = [] := List.eq_nil_of_length_eq_zero h0
    subst hnil
    refine ⟨?_, ?_, ?_⟩ <;> simp [classify]
  · by_cases h1 : data.length < 4 ∨ (5 ≤ data.length ∧ data.length % 2 ≠ 1)
    · have hc : classify data = Classification.unrecognized := by
        unfold classify; rw [if_neg h0, if_pos h1]
      rw [hc]
      refine ⟨⟨fun h => Classification.noConfusion h, fun h => absurd h h0⟩,
              ⟨fun _ => by omega, fun _ => rfl⟩, ?_⟩
      constructor
      · rintro ⟨t, d, ht⟩
        exact Classification.noConfusion ht
      · intro h
        exact absurd h (by omega)
    · have hc : classify data =
          Classification.resolved (renderResults data) (data.getD (data.length - 2) "") := by
        unfold classify; rw [if_neg h0, if_neg h1]
      rw [hc]
      refine ⟨⟨fun h => Classification.noConfusion h, fun h => absurd h h0⟩,
              ⟨fun h => Classification.noConfusion h, fun h => absurd h (by omega)⟩, ?_⟩
      exact ⟨fun _ => by omega, fun _ => ⟨_, _, rfl⟩⟩

/-- The additional-row loop, run with enough fuel, appends to its
accumulator one `rowPart` for each iteration index `i, i+2, i+4, ...`
below `data.length - 3`. -/
theorem renderLoopF_eq (data : List String) :
    ∀ (fuel i : Nat) (acc : String),
      (data.length - 3 - i + 1) / 2 ≤ fuel →
      renderLoopF data fuel i acc =
        acc ++ joinParts ((List.range ((data.length - 3 - i + 1) / 2)).map
          (fun j => rowPart data (i + 2 * j))) := by
  intro fuel
  induction fuel with
  | zero =>
    intro i acc h
    have hz : (data.length - 3 - i + 1) / 2 = 0 := Nat.le_zero.mp h
    rw [hz]
    simp [renderLoopF, joinParts]
  | succ fuel ih =>
    intro i acc h
    by_cases hlt : i < data.length - 3
    · have hk : (data.length - 3 - i + 1) / 2 =
          (data.length - 3 - (i + 2) + 1) / 2 + 1 := by omega
      rw [renderLoopF, if_pos hlt, ih (i + 2) _ (by omega), hk,
        List.range_succ_eq_map, List.map_cons, List.map_map]
      simp only [joinParts, Function.comp_def, Nat.succ_eq_add_one, Nat.mul_zero, Nat.add_zero]
      simp only [show ∀ j, i + 2 * (j + 1) = i + 2 + 2 * j from fun j => by omega]
      simp only [rowPart, String.append_assoc]
    · have hz : (data.length - 3 - i + 1) / 2 = 0 := by omega
      rw [renderLoopF, if_neg hlt, hz]
      simp [joinParts]

/-- C2: for every cell sequence classified `resolved`, the result text is
the header `cells[1] ++ " " ++ cells[2]` followed by `" | " ++ cells[i]
++ " " ++ cells[i+1]` for `i = 3, 5, 7, ...` while `i < count - 3`, the
sample date is `cells[count-2]`, and for a count of 4 the text is
header-only. -/
theorem C2_rendering (data : List String) (text date : String)
    (h : classify data = Classification.resolved text date) :
    text = specText data ∧
    date = data.getD (data.length - 2) "" ∧
    (data.length = 4 → text = data.getD 1 "" ++ " " ++ data.getD 2 "") := by
  unfold classify at h
  by_cases h0 : data.length = 0
  · rw [if_pos h0] at h
    exact absurd h (by simp)
  · by_cases h1 : data.length < 4 ∨ (5 ≤ data.length ∧ data.length % 2 ≠ 1)
    · rw [if_neg h0, if_pos h1] at h
      exact absurd h (by simp)
    · rw [if_neg h0, if_neg h1, Classification.resolved.injEq] at h
      obtain ⟨ht, hd⟩ := h
      have hrender : renderResults data = specText data := by
        unfold renderResults specText numAdditionalRows
        rw [renderLoopF_eq data data.length 3 _ (by omega)]
        rw [show (data.length - 3 - 3 + 1) / 2 = (data.length - 5) / 2 from by omega]
      refine ⟨ht.symm.trans hrender, hd.symm, fun h4 => ?_⟩
      rw [← ht, hrender]
      unfold specText numAdditionalRows
      rw [h4]
      simp [joinParts, String.append_empty]

/-- C3 (amended): every string the extractor emits is the whitespace-trimmed,
non-empty text of some text node of the stream that occurs after a td start
tag — capture persists past the cell's end tag until a non-empty text
arrives, so the text node need not lie inside the cell — emission is in
document order (a subsequence of the stream's trimmed text nodes), and an
empty trimmed text is discarded while capturing continues. -/
theorem C3_extractor_amended (toks : List Token) :
    (∀ s, s ∈ extractTDs false toks →
      ∃ l1 d l2, toks = l1 ++ Token.text d :: l2 ∧ s = trimSpace d ∧ trimSpace d ≠ "" ∧
        ∃ m1 m2, l1 = m1 ++ Token.startTag "td" :: m2) ∧
    List.Sublist (extractTDs false toks) ((toks.filterMap textOf).map trimSpace) ∧
    (∀ d rest, trimSpace d = "" →
      extractTDs true (Token.text d :: rest) = extractTDs true rest) := by
  refine ⟨?_, extractTDs_sublist toks false, ?_⟩
  · intro s hs
    obtain ⟨l1, d, l2, heq, hs', hne, hgrab⟩ := extractTDs_sound toks false s hs
    rcases hgrab with hft | htd
    · exact absurd hft (by simp)
    · exact ⟨l1, d, l2, heq, hs', hne, htd⟩
  · intro d rest hd
    simp [extractTDs, hd]

/-- C3 witness for the amended soundness clause at the concrete stream
`<td>a`: the emitted "a" is the trim of a text node preceded by a td start
tag. -/
theorem C3_extractor_amended_witness :
    ∃ l1 d l2, oneCellToks = l1 ++ Token.text d :: l2 ∧ "a" = trimSpace d ∧
      trimSpace d ≠ "" ∧ ∃ m1 m2, l1 = m1 ++ Token.startTag "td" :: m2 :=
  (C3_extractor_amended oneCellToks).1 "a" (by decide)

/-- C3 counterexample: on the stream of `<td></td>x` the extractor emits
"x", yet the stream's only text node (position 2) lies outside every
table-cell element — the cell closed before the text arrived. -/
theorem C3_counterexample :
    getAllTDs strayTextToks false = some ["x"] ∧
    strayTextToks.filterMap textOf = ["x"] ∧
    strayTextToks.getD 2 Token.other = Token.text "x" ∧
    inCellB strayTextToks 2 = false := by decide

/-- C10: capture is set only by start tags named exactly "td"; a stream
containing no td start tag — in particular one whose cells are th header
cells — makes the extractor emit nothing. -/
theorem C10_only_td_triggers (toks : List Token)
    (h : ∀ name, Token.startTag name ∈ toks → name ≠ "td") :
    getAllTDs toks false = some [] := by
  unfold getAllTDs
  rw [if_neg (by simp), extractTDs_no_td toks h]

/-- C10 witness: the header-cell document `<th>Header</th>outside` emits
nothing. -/
theorem C10_witness : getAllTDs thOnlyToks false = some [] := by
  refine C10_only_td_triggers thOnlyToks ?_
  intro name hm
  simp only [thOnlyToks, List.mem_cons, List.not_mem_nil, or_false] at hm
  rcases hm with h1 | h1 | h1 | h1 <;> first
    | (injection h1 with h1; subst h1; decide)
    | exact Token.noConfusion h1

/-- C8: scraping the fixture
`<table><tr><td>a</td><td>H1</td><td>H2</td><td>2024-01-01</td></tr></table>`
yields exactly the four cells, which the parser classifies as resolved with
header-only text "H1 H2" (no " | " separator) and sample date the
second-to-last cell (index 2), that is "H2". -/
theorem C8_roundtrip :
    getAllTDs fixtureTokens false = some ["a", "H1", "H2", "2024-01-01"] ∧
    classify ["a", "H1", "H2", "2024-01-01"] = Classification.resolved "H1 H2" "H2" ∧
    strContains "H1 H2" " | " = false ∧
    (["a", "H1", "H2", "2024-01-01"] : List String).getD 2 "" = "H2" := by decide

/-- C4 counterexample: the pending query is a substring LIKE match, so a
record whose results field is "still pending" — not equal to the sentinel
"pending" — is still selected. -/
theorem C4_counterexample :
    selectPending [strayPendingRow] = [strayPendingRow] ∧
    strayPendingRow.results ≠ some "pending" := by decide

/-- C4 (amended): a polling pass selects exactly the persisted records
whose results field is non-NULL and contains the sentinel "pending" as an
ASCII case-insensitive substring. -/
theorem C4_pending_query_amended (db : List Sample) (r : Sample) :
    r ∈ selectPending db ↔
      r ∈ db ∧ ∃ s, r.results = some s ∧ strContains (lowerStr s) "pending" = true := by
  unfold selectPending
  rw [List.mem_filter]
  constructor
  · rintro ⟨hmem, hp⟩
    refine ⟨hmem, ?_⟩
    cases hres : r.results with
    | none => rw [hres] at hp; exact absurd hp (by simp [likePending])
    | some s => rw [hres] at hp; exact ⟨s, rfl, by simpa [likePending] using hp⟩
  · rintro ⟨hmem, s, hres, hc⟩
    exact ⟨hmem, by simp [likePending, hres, hc]⟩

/-- C2 witness at the spec's length-7 example: the rendered text is
"H1 H2 | R1a R1b" and the sample date is "DATE". -/
theorem C2_rendering_witness :
    "H1 H2 | R1a R1b" = specText cells7 ∧
    "DATE" = cells7.getD (cells7.length - 2) "" ∧
    (cells7.length = 4 → "H1 H2 | R1a R1b" = cells7.getD 1 "" ++ " " ++ cells7.getD 2 "") :=
  C2_rendering cells7 "H1 H2 | R1a R1b" "DATE" (by decide)

/-- One `updateOne` call either leaves the store untouched or applies the
barcode-matched commit map for some resolved text and date. -/
theorem updateOne_fst (people : List ConfigPerson) (portal : Sample → PortalResp)
    (now : Nat) (db : List Sample) (smpl : Sample) :
    (updateOne people portal now db smpl).1 = db ∨
    ∃ res date, (updateOne people portal now db smpl).1 =
      db.map (fun r => if r.barcode == smpl.barcode then updateRow res date now r else r) := by
  unfold updateOne
  split
  · exact Or.inl rfl
  · split
    · exact Or.inl rfl
    · split
      · exact Or.inl rfl
      · split
        · exact Or.inl rfl
        · exact Or.inl rfl
        · exact Or.inr ⟨_, _, rfl⟩

/-- The commit map for barcode `bc` leaves the rows of any other barcode
`b` untouched: filtering on `b` commutes with it. -/
theorem filter_barcode_map (db : List Sample) (res date : String) (now : Nat)
    (bc b : String) (hb : bc ≠ b) :
    (db.map (fun r => if r.barcode == bc then updateRow res date now r else r)).filter
        (fun r => r.barcode == b) =
      db.filter (fun r => r.barcode == b) := by
  induction db with
  | nil => rfl
  | cons r rest ih =>
    simp only [List.map_cons, List.filter_cons]
    by_cases hr : r.barcode = bc
    · have h1 : (r.barcode == bc) = true := by simpa using hr
      have h2 : (r.barcode == b) = false := by
        simp only [beq_eq_false_iff_ne, ne_eq, hr]
        exact hb
      have h3 : ((updateRow res date now r).barcode == b) = false := h2
      rw [h1, if_pos rfl]
      simp only [h2, h3, Bool.false_eq_true, if_false, ih]
    · have h1 : (r.barcode == bc) = false := by simpa using hr
      rw [h1]
      simp only [Bool.false_eq_true, if_false, ih]

/-- `updateOne` for a sample whose barcode differs from `b` leaves the
`b`-rows of the store untouched. -/
theorem updateOne_filter_preserve (people : List ConfigPerson)
    (portal : Sample → PortalResp) (now : Nat) (db : List Sample) (smpl : Sample)
    (b : String) (hb : smpl.barcode ≠ b) :
    (updateOne people portal now db smpl).1.filter (fun r => r.barcode == b) =
      db.filter (fun r => r.barcode == b) := by
  rcases updateOne_fst people portal now db smpl with h | ⟨res, date, h⟩
  · rw [h]
  · rw [h]
    exact filter_barcode_map db res date now smpl.barcode b hb

/-- The per-sample loop of a pass, run over a snapshot none of whose
samples carries barcode `b`, leaves the `b`-rows of the store untouched,
whether or not it ends fatally. -/
theorem updatePendingLoop_filter_preserve (people : List ConfigPerson)
    (portal : Sample → PortalResp) (now : Nat) (b : String) :
    ∀ (samples : List Sample) (db : List Sample), (∀ s ∈ samples, s.barcode ≠ b) →
    (updatePendingLoop people portal now db samples).1.filter (fun r => r.barcode == b) =
      db.filter (fun r => r.barcode == b) := by
  intro samples
  induction samples with
  | nil => intro db _; rfl
  | cons s rest ih =>
    intro db h
    have hpres : (updateOne people portal now db s).1.filter (fun r => r.barcode == b) =
        db.filter (fun r => r.barcode == b) :=
      updateOne_filter_preserve people portal now db s b (h s (List.mem_cons_self _ _))
    simp only [updatePendingLoop]
    cases hu : updateOne people portal now db s with
    | mk db' fatal =>
      rw [hu] at hpres
      cases fatal
      · rw [ih db' fun t ht => h t (List.mem_cons_of_mem _ ht)]
        exact hpres
      · exact hpres

/-- A whole polling pass leaves the `b`-rows untouched when no record whose
results matches the pending LIKE filter carries barcode `b`. -/
theorem updatePending_filter_preserve (people : List ConfigPerson)
    (portal : Sample → PortalResp) (now : Nat) (db : List Sample) (b : String)
    (h : ∀ r ∈ db, r.barcode = b → likePending r.results = false) :
    (updatePending people portal now db).1.filter (fun r => r.barcode == b) =
      db.filter (fun r => r.barcode == b) := by
  apply updatePendingLoop_filter_preserve
  intro s hs hsb
  have hm := List.mem_filter.mp hs
  have hfalse := h s hm.1 hsb
  rw [hfalse] at hm
  exact Bool.noConfusion hm.2

/-- A polling pass preserves the invariant that no `b`-row matches the
pending LIKE filter. -/
theorem updatePending_inv (people : List ConfigPerson)
    (portal : Sample → PortalResp) (now : Nat) (db : List Sample) (b : String)
    (h : ∀ r ∈ db, r.barcode = b → likePending r.results = false) :
    ∀ r ∈ (updatePending people portal now db).1, r.barcode = b →
      likePending r.results = false := by
  intro r hr hrb
  have hfp := updatePending_filter_preserve people portal now db b h
  have hrmem : r ∈ (updatePending people portal now db).1.filter
      (fun r => r.barcode == b) :=
    List.mem_filter.mpr ⟨hr, by simpa using hrb⟩
  rw [hfp] at hrmem
  exact h r (List.mem_filter.mp hrmem).1 hrb

/-- Any sequence of polling passes leaves the `b`-rows of the store
untouched, and keeps them out of the pending LIKE filter, as long as no
pending-matching record carries barcode `b` at the start. -/
theorem periodicallyUpdate_preserve (people : List ConfigPerson) (b : String) :
    ∀ (ticks : List ((Sample → PortalResp) × Nat)) (db : List Sample),
    (∀ r ∈ db, r.barcode = b → likePending r.results = false) →
    (periodicallyUpdate people ticks db).1.filter (fun r => r.barcode == b) =
      db.filter (fun r => r.barcode == b) ∧
    (∀ r ∈ (periodicallyUpdate people ticks db).1, r.barcode = b →
      likePending r.results = false) := by
  intro ticks
  induction ticks with
  | nil => intro db h; exact ⟨rfl, h⟩
  | cons tick rest ih =>
    intro db h
    obtain ⟨portal, now⟩ := tick
    have h1 := updatePending_filter_preserve people portal now db b h
    have h2 := updatePending_inv people portal now db b h
    simp only [periodicallyUpdate]
    cases hu : updatePending people portal now db with
    | mk db' fatal =>
      rw [hu] at h1 h2
      cases fatal
      · obtain ⟨ha, hinv⟩ := ih db' h2
        exact ⟨ha.trans h1, hinv⟩
      · exact ⟨h1, h2⟩

/-- C5 (amended): once no record whose results contains the pending
sentinel (as the substring LIKE query reads it) carries barcode `b` — in
particular once the specimen's results has been committed to a value
without "pending" in it and no duplicate-barcode pending record exists —
the rows with that barcode are never modified by any later sequence of
polling passes and are never selected again. -/
theorem C5_resolved_stability (people : List ConfigPerson)
    (ticks : List ((Sample → PortalResp) × Nat)) (db : List Sample) (b : String)
    (h : ∀ r ∈ db, r.barcode = b → likePending r.results = false) :
    (periodicallyUpdate people ticks db).1.filter (fun r => r.barcode == b) =
      db.filter (fun r => r.barcode == b) ∧
    ∀ r ∈ (periodicallyUpdate people ticks db).1, r.barcode = b →
      r ∉ selectPending (periodicallyUpdate people ticks db).1 := by
  obtain ⟨h1, h2⟩ := periodicallyUpdate_preserve people b ticks db h
  refine ⟨h1, ?_⟩
  intro r hr hrb hmem
  have hm := List.mem_filter.mp hmem
  rw [h2 r hr hrb] at hm
  exact Bool.noConfusion hm.2

/-- C5 witness: a store holding one resolved, sentinel-free specimen is
untouched by a further pass and the specimen is never selected again. -/
theorem C5_resolved_stability_witness :
    (periodicallyUpdate onePerson [(cleanPortal, 5)] resolvedDb).1.filter
        (fun r => r.barcode == "b") =
      resolvedDb.filter (fun r => r.barcode == "b") ∧
    ∀ r ∈ (periodicallyUpdate onePerson [(cleanPortal, 5)] resolvedDb).1,
      r.barcode = "b" →
      r ∉ selectPending (periodicallyUpdate onePerson [(cleanPortal, 5)] resolvedDb).1 :=
  C5_resolved_stability onePerson [(cleanPortal, 5)] resolvedDb "b" (by decide)

/-- C5 counterexample: a pass commits the resolved value "pending review"
(different from the sentinel "pending"), yet the next pass selects the
specimen again and commits it a second time (its updated_time moves
again). -/
theorem C5_counterexample :
    (updatePending onePerson pendingWordPortal 1 pendingDb).1 =
      [{ name := "n", barcode := "b", results := some "pending review",
         createdTime := 0, updatedTime := 1, sampleDate := some "review" }] ∧
    some "pending review" ≠ some "pending" ∧
    selectPending (updatePending onePerson pendingWordPortal 1 pendingDb).1 =
      (updatePending onePerson pendingWordPortal 1 pendingDb).1 ∧
    (updatePending onePerson pendingWordPortal 2
        (updatePending onePerson pendingWordPortal 1 pendingDb).1).1 =
      [{ name := "n", barcode := "b", results := some "pending review",
         createdTime := 0, updatedTime := 2, sampleDate := some "review" }] := by decide

/-- C6: after a successful resolved commit the affected-row count is
checked, and the process terminates (the fatal flag is set) exactly when
that count differs from one; with a count of one it continues normally. -/
theorem C6_fatal_iff (people : List ConfigPerson) (portal : Sample → PortalResp)
    (now : Nat) (db : List Sample) (smpl : Sample) (toks : List Token)
    (tokErr : Bool) (data : List String) (res date : String)
    (hdob : lookupDob people smpl.name ≠ "")
    (hport : portal smpl = PortalResp.body toks tokErr)
    (hdata : getAllTDs toks tokErr = some data)
    (hclass : classify data = Classification.resolved res date) :
    (updateOne people portal now db smpl).2 = true ↔
      (db.filter (fun r => r.barcode == smpl.barcode)).length ≠ 1 := by
  unfold updateOne
  rw [if_neg hdob]
  simp only [hport, hdata, hclass]
  simp [bne_iff_ne]

/-- C6 witness: committing the clean portal's resolved result against a
store holding exactly one matching barcode is not fatal. -/
theorem C6_fatal_iff_witness :
    (updateOne onePerson cleanPortal 5 resolvedDb pendingSample).2 = true ↔
      (resolvedDb.filter (fun r => r.barcode == pendingSample.barcode)).length ≠ 1 :=
  C6_fatal_iff onePerson cleanPortal 5 resolvedDb pendingSample cleanToks false
    ["s", "Covid", "Negative", "2024"] "Covid Negative" "Negative"
    (by decide) rfl (by decide) (by decide)

/-- C7: each soft failure — roster no-match, portal network error,
scrape/tokenizer error, empty cell sequence, or unrecognized cell count —
leaves the whole store unchanged and non-fatal, and the pass goes on to
process exactly the remaining specimens of its snapshot. -/
theorem C7_soft_failures (people : List ConfigPerson) (portal : Sample → PortalResp)
    (now : Nat) (db : List Sample) (smpl : Sample) (rest : List Sample)
    (h : lookupDob people smpl.name = ""
      ∨ portal smpl = PortalResp.netErr
      ∨ (∃ toks tokErr, portal smpl = PortalResp.body toks tokErr ∧
          getAllTDs toks tokErr = none)
      ∨ (∃ toks tokErr data, portal smpl = PortalResp.body toks tokErr ∧
          getAllTDs toks tokErr = some data ∧
          (classify data = Classification.notYetAvailable ∨
            classify data = Classification.unrecognized))) :
    updateOne people portal now db smpl = (db, false) ∧
    updatePendingLoop people portal now db (smpl :: rest) =
      updatePendingLoop people portal now db rest := by
  have hu : updateOne people portal now db smpl = (db, false) := by
    unfold updateOne
    by_cases hd : lookupDob people smpl.name = ""
    · rw [if_pos hd]
    · rw [if_neg hd]
      rcases h with h1 | h2 | ⟨toks, e, hp, hg⟩ | ⟨toks, e, data, hp, hg, hc⟩
      · exact absurd h1 hd
      · simp only [h2]
      · simp only [hp, hg]
      · rcases hc with hc | hc <;> simp only [hp, hg, hc]
  refine ⟨hu, ?_⟩
  simp only [updatePendingLoop, hu]

/-- C7 witness: a network error for the single pending specimen leaves the
store unchanged and the pass equal to the pass over the rest. -/
theorem C7_soft_failures_witness :
    updateOne onePerson netErrPortal 3 pendingDb pendingSample = (pendingDb, false) ∧
    updatePendingLoop onePerson netErrPortal 3 pendingDb (pendingSample :: []) =
      updatePendingLoop onePerson netErrPortal 3 pendingDb [] :=
  C7_soft_failures onePerson netErrPortal 3 pendingDb pendingSample []
    (Or.inr (Or.inl rfl))

/-- C9: when the commit's barcode matches more than one row, every matching
row's results, updated_time and sample_date are set; the returned store is
the fully updated one, so the fatal termination that follows the
affected-row check neither prevents nor rolls back the multi-row update,
and the pass ends fatally carrying that store. -/
theorem C9_multi_row (people : List ConfigPerson) (portal : Sample → PortalResp)
    (now : Nat) (db : List Sample) (smpl : Sample) (rest : List Sample)
    (toks : List Token) (tokErr : Bool) (data : List String) (res date : String)
    (hdob : lookupDob people smpl.name ≠ "")
    (hport : portal smpl = PortalResp.body toks tokErr)
    (hdata : getAllTDs toks tokErr = some data)
    (hclass : classify data = Classification.resolved res date)
    (hmulti : 2 ≤ (db.filter (fun r => r.barcode == smpl.barcode)).length) :
    updateOne people portal now db smpl =
      (db.map (fun r => if r.barcode == smpl.barcode then updateRow res date now r else r),
        true) ∧
    (∀ r ∈ (updateOne people portal now db smpl).1, r.barcode = smpl.barcode →
      r.results = some res ∧ r.updatedTime = now ∧ r.sampleDate = some date) ∧
    updatePendingLoop people portal now db (smpl :: rest) =
      ((updateOne people portal now db smpl).1, true) := by
  have hfatal : ((db.filter (fun r => r.barcode == smpl.barcode)).length != 1) = true := by
    simp only [bne_iff_ne, ne_eq]
    omega
  have hu : updateOne people portal now db smpl =
      (db.map (fun r => if r.barcode == smpl.barcode then updateRow res date now r else r),
        true) := by
    unfold updateOne
    rw [if_neg hdob]
    simp only [hport, hdata, hclass, hfatal]
  refine ⟨hu, ?_, ?_⟩
  · intro r hr hrb
    rw [hu] at hr
    simp only [List.mem_map] at hr
    obtain ⟨r0, hmem, hr0⟩ := hr
    by_cases hb : (r0.barcode == smpl.barcode) = true
    · rw [if_pos hb] at hr0
      rw [← hr0]
      exact ⟨rfl, rfl, rfl⟩
    · rw [if_neg hb] at hr0
      subst hr0
      exact absurd (by simpa using hrb) hb
  · simp only [updatePendingLoop, hu]

/-- C9 witness: with two pending rows sharing one barcode, the commit
updates both, returns the updated store, and is fatal. -/
theorem C9_multi_row_witness :
    updateOne onePerson cleanPortal 7 dupBarcodeDb pendingSample =
      (dupBarcodeDb.map (fun r =>
        if r.barcode == pendingSample.barcode then updateRow "Covid Negative" "Negative" 7 r
        else r), true) ∧
    (∀ r ∈ (updateOne onePerson cleanPortal 7 dupBarcodeDb pendingSample).1,
      r.barcode = pendingSample.barcode →
      r.results = some "Covid Negative" ∧ r.updatedTime = 7 ∧
        r.sampleDate = some "Negative") ∧
    updatePendingLoop onePerson cleanPortal 7 dupBarcodeDb (pendingSample :: []) =
      ((updateOne onePerson cleanPortal 7 dupBarcodeDb pendingSample).1, true) :=
  C9_multi_row onePerson cleanPortal 7 dupBarcodeDb pendingSample [] cleanToks false
    ["s", "Covid", "Negative", "2024"] "Covid Negative" "Negative"
    (by decide) rfl (by decide) (by decide) (by decide)

end Cascadia
